import Mathlib

/-!
Verification development for the igasync asynchronous-computation library.

The repository ships two generations of several components side by side:

* a legacy self-contained `include/igasync/promise.h` and the inline bodies of
  `include/igasync/promise_combiner.h` (TaskList-based API), and
* newer out-of-line bodies in `include/igasync/promise.inl`,
  `include/igasync/void_promise.inl`, `include/igasync/promise_combiner.inl`,
  `src/void_promise.cc` (ExecutionContext-based API).

Both generations are embedded here where a claim cites both.  States are
finite records over `Nat`/`Int`/`Bool`/`List`; scheduling a task onto an
execution context is modelled as appending to the per-context FIFO queue, and
`execute_next` as popping the head of one queue.  All definitions are
executable, so concrete traces evaluate by `decide`/`rfl`.
-/

set_option autoImplicit false

namespace Igasync

/-- Append a task to the queue of context `ctx` (out-of-range `ctx` is a
no-op, matching that traces only use contexts that exist). -/
def enqTask {τ : Type} (queues : List (List τ)) (ctx : Nat) (t : τ) :
    List (List τ) :=
  queues.set ctx ((queues.getD ctx []) ++ [t])

/-! ## PromiseCombiner (promise_combiner.h + promise_combiner.cc)

The combiner state carries exactly the fields of the C++ class that the
claims speak about: `next_key_` (a `uint16_t`, hence arithmetic mod 65536),
`entries_` (key / IsResolved / IsOwning; the type-erased `PromiseRaw` handle
is treated separately in the `AC` section), `is_finished_`, whether `result_`
currently holds the self-reference, whether `final_promise_` has resolved,
and `options_.DefaultTaskList`. -/

namespace Comb

/-- One element of `PromiseCombiner::entries_` (`PromiseEntry`), minus the
type-erased `PromiseRaw` pointer which carries no state these claims need. -/
structure Entry where
  key : Nat
  isResolved : Bool
  isOwning : Bool
  deriving Repr, DecidableEq

/-- Abstract state of a `PromiseCombiner`. -/
structure Combiner where
  nextKey : Nat
  entries : List Entry
  isFinished : Bool
  /-- `result_.combiner_ != nullptr`: the self-reference installed by
  `combine*` and moved out again into `final_promise_` by
  `resolve_promise`. -/
  resultHeld : Bool
  /-- whether `final_promise_` has been resolved. -/
  finalResolved : Bool
  /-- `options_.DefaultTaskList` (present or null). -/
  defaultTaskList : Option Unit
  deriving Repr, DecidableEq

/-- `PromiseCombiner::PromiseCombiner` (promise_combiner.cc:16-21):
`next_key_` starts at 1, everything else empty/false. -/
def initC (dtl : Option Unit) : Combiner :=
  { nextKey := 1, entries := [], isFinished := false, resultHeld := false,
    finalResolved := false, defaultTaskList := dtl }

/-- `PromiseKey::is_valid` (promise_combiner.h:66): `key_ > 0`. -/
def isValidKey (k : Nat) : Bool := k > 0

/-- The marking loop of `resolve_promise` (promise_combiner.cc:77-82): set
`IsResolved` on the first entry whose `Key` matches, then break. -/
def markFirst (key : Nat) : List Entry → List Entry
  | [] => []
  | e :: t =>
    if e.key = key then { e with isResolved := true } :: t
    else e :: markFirst key t

/-- `PromiseCombiner::resolve_promise` (promise_combiner.cc:73-96): mark the
entry for `key` (skipped for the sentinel key 0), return early unless
`is_finished_`, and when every entry is resolved, resolve `final_promise_`
with the self-referencing `result_` moved out of the combiner.  A repeat call
re-moves an already-moved `result_` and `final_promise_->resolve` rejects it,
so `finalResolved`/`resultHeld` are simply absorbed. -/
def resolvePromiseC (key : Nat) (c : Combiner) : Combiner :=
  let entries := if key ≠ 0 then markFirst key c.entries else c.entries
  if ¬ c.isFinished then { c with entries := entries }
  else if entries.all (·.isResolved) then
    { c with entries := entries, finalResolved := true, resultHeld := false }
  else { c with entries := entries }

/-- `PromiseCombiner::add` / `add_consuming` (promise_combiner.h:206-304):
resolve the task list from the override and the default, reject with the
invalid key 0 when both are null (the `assert(false)` is a release-build
no-op) or when already finalized; otherwise hand out `next_key_++` (16-bit
wrap-around) and append the entry.  Returns the `PromiseKey` value and the
new state; the `on_resolve`/`consume` hookup of the child promise surfaces as
separate `childResolve` trace events. -/
def addC (override : Option Unit) (owning : Bool) (c : Combiner) :
    Nat × Combiner :=
  let taskList := match override with
    | some u => some u
    | none => c.defaultTaskList
  if taskList = none then (0, c)
  else if c.isFinished then (0, c)
  else
    (c.nextKey,
      { c with
        nextKey := (c.nextKey + 1) % 65536,
        entries := c.entries ++ [⟨c.nextKey, false, owning⟩] })

/-- `PromiseCombiner::combine` / `combine_chaining`
(promise_combiner.h:310-402, promise_combiner.cc:23-71): reject (null
promise handle) when no task list is available or when already finalized;
otherwise install `result_ = Result(shared_from_this())`, set
`is_finished_ = true` and run the sentinel tick `resolve_promise(0)`. -/
def combineC (override : Option Unit) (c : Combiner) :
    Option Unit × Combiner :=
  let taskList := match override with
    | some u => some u
    | none => c.defaultTaskList
  if taskList = none then (none, c)
  else if c.isFinished then (none, c)
  else
    (some (),
      resolvePromiseC 0 { c with resultHeld := true, isFinished := true })

/-- Trace events against one combiner: an `add`/`add_consuming` call (with
the effective task-list availability), the `resolve_promise(key)` notification
fired when a child promise resolves, and a `combine*` call. -/
inductive COp where
  | add (tl : Option Unit) (owning : Bool)
  | childResolve (key : Nat)
  | combine (tl : Option Unit)
  deriving Repr, DecidableEq

/-- Apply one trace event (drop the value returned to the caller). -/
def applyC (c : Combiner) : COp → Combiner
  | .add tl owning => (addC tl owning c).2
  | .childResolve key => resolvePromiseC key c
  | .combine tl => (combineC tl c).2

/-- Run a trace of combiner events. -/
def runC (ops : List COp) (c : Combiner) : Combiner :=
  ops.foldl applyC c

/-- `Result::~Result` (promise_combiner.h:189-194): when the handle still
owns the combiner back-reference it clears `entries_`, and touches nothing
else of the combiner. -/
def resultDtor (holdsRef : Bool) (c : Combiner) : Combiner :=
  if holdsRef then { c with entries := [] } else c

end Comb

/-! ## Promise<ValT>, current generation (promise.inl)

Each registered continuation gets a fresh numeric id.  A dispatched task is
one of: a then-callback that was queued while pending (its task body is
`fn(*result_); remaining_thens_--; maybe_consume();`, promise.inl:37-42), a
then-callback registered after resolution (body just `fn(*result_)`,
promise.inl:62-64), or the consumer (promise.inl:94-97 / 217-220).
`completedThens` records ids whose user function has finished;
`consumerRuns` records each execution of a consumer task. -/

namespace NV

/-- The three task shapes a `Promise<ValT>` schedules onto an execution
context. -/
inductive TaskNV where
  | thenPre (id : Nat)
  | thenPost (id : Nat)
  | consumer (id : Nat)
  deriving Repr, DecidableEq

/-- Fields of `Promise<ValT>` (current generation): `result_`,
`accept_thens_`, `remaining_thens_`, the pending `then_queue_` of
(callback id, execution-context index), `consume_` and `is_finished_`. -/
structure PNV where
  result : Option Nat
  acceptThens : Bool
  remainingThens : Int
  thenQueue : List (Nat × Nat)
  consumeSlot : Option (Nat × Nat)
  isFinished : Bool
  deriving Repr, DecidableEq

/-- A promise together with the execution contexts it schedules onto and the
observable callback history. -/
structure WNV where
  p : PNV
  ctxs : List (List TaskNV)
  completedThens : List Nat
  consumerRuns : List Nat
  nextId : Nat
  deriving Repr, DecidableEq

/-- `Promise()` constructor plus `nCtx` empty execution contexts. -/
def initNV (nCtx : Nat) : WNV :=
  { p := { result := none, acceptThens := true, remainingThens := 0,
           thenQueue := [], consumeSlot := none, isFinished := false },
    ctxs := List.replicate nCtx [], completedThens := [], consumerRuns := [],
    nextId := 0 }

/-- `Promise<ValT>::maybe_consume` (promise.inl:214-222): when
`remaining_thens_ == 0` and `consume_` is occupied, schedule the consumer
task on the consumer's scheduler.  The slot is not cleared (the C++ moves the
function out but leaves the optional engaged). -/
def maybeConsumeNV (w : WNV) : WNV :=
  match w.p.consumeSlot with
  | some idCtx =>
    if w.p.remainingThens = 0 then
      { w with ctxs := enqTask w.ctxs idCtx.2 (.consumer idCtx.1) }
    else w
  | none => w

/-- `Promise<ValT>::resolve` (promise.inl:19-48): reject (null handle) when
`result_` already holds a value; otherwise store the value, set
`is_finished_`, flush the then-queue in FIFO order — scheduling one
`thenPre` task per entry — and run `maybe_consume`. -/
def resolveNV (v : Nat) (w : WNV) : Option Unit × WNV :=
  if w.p.result.isSome then (none, w)
  else
    let w₁ :=
      { w with
        p := { w.p with result := some v, isFinished := true, thenQueue := [] },
        ctxs := w.p.thenQueue.foldl
          (fun qs idCtx => enqTask qs idCtx.2 (TaskNV.thenPre idCtx.1))
          w.ctxs }
    (some (), maybeConsumeNV w₁)

/-- `Promise<ValT>::on_resolve` (promise.inl:50-72): null when a consumer is
already attached; schedule immediately (a `thenPost` task, no
`remaining_thens_` increment) when already resolved; otherwise increment
`remaining_thens_` and append to `then_queue_`. -/
def onResolveNV (ctx : Nat) (w : WNV) : Option Unit × WNV :=
  if ¬ w.p.acceptThens then (none, w)
  else if w.p.result.isSome then
    (some (),
      { w with ctxs := enqTask w.ctxs ctx (.thenPost w.nextId),
               nextId := w.nextId + 1 })
  else
    (some (),
      { w with
        p := { w.p with
                remainingThens := w.p.remainingThens + 1,
                thenQueue := w.p.thenQueue ++ [(w.nextId, ctx)] },
        nextId := w.nextId + 1 })

/-- `Promise<ValT>::consume` (promise.inl:80-104): null when a consumer is
already attached; set `accept_thens_ = false`; schedule the consumer
immediately when `remaining_thens_ == 0` and the result is present, else
park it in `consume_`. -/
def consumeNV (ctx : Nat) (w : WNV) : Option Unit × WNV :=
  if ¬ w.p.acceptThens then (none, w)
  else if w.p.remainingThens = 0 ∧ w.p.result.isSome then
    (some (),
      { w with p := { w.p with acceptThens := false },
               ctxs := enqTask w.ctxs ctx (.consumer w.nextId),
               nextId := w.nextId + 1 })
  else
    (some (),
      { w with
        p := { w.p with
                acceptThens := false,
                consumeSlot := some (w.nextId, ctx) },
        nextId := w.nextId + 1 })

/-- `TaskList::execute_next` on context `ctx`: pop and run the head task.
A `thenPre` body finishes the user function, decrements `remaining_thens_`
and re-checks `maybe_consume` (promise.inl:37-42). -/
def execNV (ctx : Nat) (w : WNV) : WNV :=
  match w.ctxs.getD ctx [] with
  | [] => w
  | t :: rest =>
    let w₁ := { w with ctxs := w.ctxs.set ctx rest }
    match t with
    | .thenPost id => { w₁ with completedThens := w₁.completedThens ++ [id] }
    | .thenPre id =>
      maybeConsumeNV
        { w₁ with
          completedThens := w₁.completedThens ++ [id],
          p := { w₁.p with remainingThens := w₁.p.remainingThens - 1 } }
    | .consumer id => { w₁ with consumerRuns := w₁.consumerRuns ++ [id] }

/-- Trace events against one current-generation promise. -/
inductive OpNV where
  | onResolve (ctx : Nat)
  | consume (ctx : Nat)
  | resolve (v : Nat)
  | exec (ctx : Nat)
  deriving Repr, DecidableEq

/-- Apply a trace event (caller-visible return values dropped). -/
def applyNV (w : WNV) : OpNV → WNV
  | .onResolve ctx => (onResolveNV ctx w).2
  | .consume ctx => (consumeNV ctx w).2
  | .resolve v => (resolveNV v w).2
  | .exec ctx => execNV ctx w

/-- Run a trace from `initNV nCtx`. -/
def runNV (nCtx : Nat) (ops : List OpNV) : WNV :=
  ops.foldl applyNV (initNV nCtx)

end NV

/-! ## Promise<ValT>, legacy generation (promise.h)

Same observable vocabulary as `NV`; the behavioural differences are confined
to `consume` (promise.h:334-356 schedules the consumer as soon as `result_`
is present, without consulting `remaining_thens_`) and to
`maybe_consume_rsl` (promise.h:458-469, which sets `remaining_thens_ = -1`
after dispatching the consumer). -/

namespace H

/-- Task shapes scheduled by the legacy `Promise<ValT>`. -/
inductive TaskH where
  | thenPre (id : Nat)
  | thenPost (id : Nat)
  | consumer (id : Nat)
  deriving Repr, DecidableEq

/-- Fields of the legacy `Promise<ValT>` (promise.h:471-483). -/
structure PH where
  result : Option Nat
  acceptsThens : Bool
  remainingThens : Int
  thenQueue : List (Nat × Nat)
  consumeSlot : Option (Nat × Nat)
  isFinished : Bool
  deriving Repr, DecidableEq

/-- Legacy promise plus its task lists and callback history. -/
structure WH where
  p : PH
  ctxs : List (List TaskH)
  completedThens : List Nat
  consumerRuns : List Nat
  nextId : Nat
  deriving Repr, DecidableEq

/-- Legacy `Promise()` constructor plus `nCtx` empty task lists. -/
def initH (nCtx : Nat) : WH :=
  { p := { result := none, acceptsThens := true, remainingThens := 0,
           thenQueue := [], consumeSlot := none, isFinished := false },
    ctxs := List.replicate nCtx [], completedThens := [], consumerRuns := [],
    nextId := 0 }

/-- `Promise<ValT>::maybe_consume_rsl` (promise.h:458-469): when
`remaining_thens_ == 0` and `consume_` is occupied, schedule the consumer on
its task list and set `remaining_thens_ = -1` (the slot keeps a moved-from
`MoveOp`, so it stays engaged). -/
def maybeConsumeRslH (w : WH) : WH :=
  match w.p.consumeSlot with
  | some idCtx =>
    if w.p.remainingThens = 0 then
      { w with ctxs := enqTask w.ctxs idCtx.2 (.consumer idCtx.1),
               p := { w.p with remainingThens := -1 } }
    else w
  | none => w

/-- `Promise<ValT>::resolve` (promise.h:265-297): reject when `result_` has
a value; else store it, set `is_finished_`, schedule one `resolve_inner`
task (`thenPre`) per queued `ThenOp`, then run `maybe_consume_rsl`. -/
def resolveH (v : Nat) (w : WH) : Option Unit × WH :=
  if w.p.result.isSome then (none, w)
  else
    let w₁ :=
      { w with
        p := { w.p with result := some v, isFinished := true, thenQueue := [] },
        ctxs := w.p.thenQueue.foldl
          (fun qs idCtx => enqTask qs idCtx.2 (TaskH.thenPre idCtx.1))
          w.ctxs }
    (some (), maybeConsumeRslH w₁)

/-- `Promise<ValT>::on_resolve` (promise.h:302-329): null once a consumer is
attached; schedule immediately (no `remaining_thens_` bump) when the result
is present; else increment `remaining_thens_` and enqueue. -/
def onResolveH (ctx : Nat) (w : WH) : Option Unit × WH :=
  if ¬ w.p.acceptsThens then (none, w)
  else if w.p.result.isSome then
    (some (),
      { w with ctxs := enqTask w.ctxs ctx (.thenPost w.nextId),
               nextId := w.nextId + 1 })
  else
    (some (),
      { w with
        p := { w.p with
                remainingThens := w.p.remainingThens + 1,
                thenQueue := w.p.thenQueue ++ [(w.nextId, ctx)] },
        nextId := w.nextId + 1 })

/-- `Promise<ValT>::consume` (promise.h:334-356): no-op once a consumer is
attached; set `accepts_thens_ = false`; when `result_` is present the
consumer task is scheduled immediately — the branch reads only
`result_.has_value()` and never looks at `remaining_thens_` — otherwise the
callback is parked in `consume_`. -/
def consumeH (ctx : Nat) (w : WH) : WH :=
  if ¬ w.p.acceptsThens then w
  else if w.p.result.isSome then
    { w with p := { w.p with acceptsThens := false },
             ctxs := enqTask w.ctxs ctx (.consumer w.nextId),
             nextId := w.nextId + 1 }
  else
    { w with
      p := { w.p with
              acceptsThens := false,
              consumeSlot := some (w.nextId, ctx) },
      nextId := w.nextId + 1 }

/-- `TaskList::execute_next` on context `ctx` for the legacy promise; a
`thenPre` task body is `resolve_inner` (promise.h:448-456): run the user
function, decrement `remaining_thens_`, re-check `maybe_consume_rsl`. -/
def execH (ctx : Nat) (w : WH) : WH :=
  match w.ctxs.getD ctx [] with
  | [] => w
  | t :: rest =>
    let w₁ := { w with ctxs := w.ctxs.set ctx rest }
    match t with
    | .thenPost id => { w₁ with completedThens := w₁.completedThens ++ [id] }
    | .thenPre id =>
      maybeConsumeRslH
        { w₁ with
          completedThens := w₁.completedThens ++ [id],
          p := { w₁.p with remainingThens := w₁.p.remainingThens - 1 } }
    | .consumer id => { w₁ with consumerRuns := w₁.consumerRuns ++ [id] }

/-- Trace events against one legacy promise. -/
inductive OpH where
  | onResolve (ctx : Nat)
  | consume (ctx : Nat)
  | resolve (v : Nat)
  | exec (ctx : Nat)
  deriving Repr, DecidableEq

/-- Apply a trace event. -/
def applyH (w : WH) : OpH → WH
  | .onResolve ctx => (onResolveH ctx w).2
  | .consume ctx => consumeH ctx w
  | .resolve v => (resolveH v w).2
  | .exec ctx => execH ctx w

/-- Run a trace from `initH nCtx`. -/
def runH (nCtx : Nat) (ops : List OpH) : WH :=
  ops.foldl applyH (initH nCtx)

end H

/-! ## Promise<void>, legacy generation (promise.h:91-218)

Continuations take no argument, so a scheduled task is just the callback id.
The branch orientation of `on_resolve` (promise.h:162-183) is kept exactly
as in the source. -/

namespace OV

/-- Fields of the legacy `Promise<void>` (promise.h:209-217). -/
structure POV where
  acceptsThens : Bool
  remainingThens : Int
  thenQueue : List (Nat × Nat)
  isFinished : Bool
  deriving Repr, DecidableEq

/-- Legacy void promise, its task lists, and which callbacks have run. -/
structure WOV where
  p : POV
  ctxs : List (List Nat)
  completed : List Nat
  nextId : Nat
  deriving Repr, DecidableEq

/-- Legacy `Promise<void>` constructor plus `nCtx` empty task lists. -/
def initOV (nCtx : Nat) : WOV :=
  { p := { acceptsThens := true, remainingThens := 0, thenQueue := [],
           isFinished := false },
    ctxs := List.replicate nCtx [], completed := [], nextId := 0 }

/-- `Promise<void>::resolve` (promise.h:128-157): reject when already
finished; otherwise set `is_finished_` and flush the then-queue, scheduling
each queued callback onto its task list. -/
def resolveOV (w : WOV) : Option Unit × WOV :=
  if w.p.isFinished then (none, w)
  else
    (some (),
      { w with
        p := { w.p with isFinished := true, thenQueue := [] },
        ctxs := w.p.thenQueue.foldl
          (fun qs idCtx => enqTask qs idCtx.2 idCtx.1) w.ctxs })

/-- `Promise<void>::on_resolve` (promise.h:162-183), verbatim branch
orientation: after the `accepts_thens_` check, `if (!is_finished_)` the
callback task is scheduled immediately, and in the other branch — reached
when `is_finished_` is true, though its comment reads "Promise is still
pending in this case" — the callback is appended to `then_queue_` and
`remaining_thens_` incremented. -/
def onResolveOV (ctx : Nat) (w : WOV) : Option Unit × WOV :=
  if ¬ w.p.acceptsThens then (none, w)
  else if ¬ w.p.isFinished then
    (some (),
      { w with ctxs := enqTask w.ctxs ctx w.nextId,
               nextId := w.nextId + 1 })
  else
    (some (),
      { w with
        p := { w.p with
                remainingThens := w.p.remainingThens + 1,
                thenQueue := w.p.thenQueue ++ [(w.nextId, ctx)] },
        nextId := w.nextId + 1 })

/-- `TaskList::execute_next` on context `ctx`: pop and run the head task. -/
def execOV (ctx : Nat) (w : WOV) : WOV :=
  match w.ctxs.getD ctx [] with
  | [] => w
  | id :: rest =>
    { w with ctxs := w.ctxs.set ctx rest, completed := w.completed ++ [id] }

/-- Trace events against one legacy void promise. -/
inductive OpOV where
  | onResolve (ctx : Nat)
  | resolve
  | exec (ctx : Nat)
  deriving Repr, DecidableEq

/-- Apply a trace event. -/
def applyOV (w : WOV) : OpOV → WOV
  | .onResolve ctx => (onResolveOV ctx w).2
  | .resolve => (resolveOV w).2
  | .exec ctx => execOV ctx w

/-- Run a trace from `initOV nCtx`. -/
def runOV (nCtx : Nat) (ops : List OpOV) : WOV :=
  ops.foldl applyOV (initOV nCtx)

end OV

/-! ## Promise<void>, current generation (void_promise.cc + void_promise.inl) -/

namespace VW

/-- Fields of the current `Promise<void>`: `is_finished_` and
`then_queue_` of (callback id, execution-context index). -/
structure PVW where
  isFinished : Bool
  thenQueue : List (Nat × Nat)
  deriving Repr, DecidableEq

/-- Current void promise, its execution contexts, and callback history. -/
structure WVW where
  p : PVW
  ctxs : List (List Nat)
  completed : List Nat
  nextId : Nat
  deriving Repr, DecidableEq

/-- `Promise<void>::resolve` (void_promise.cc:15-37): reject (null handle)
when `is_finished_`; else set it and flush the then-queue, scheduling each
queued callback on its scheduler. -/
def resolveVW (w : WVW) : Option Unit × WVW :=
  if w.p.isFinished then (none, w)
  else
    (some (),
      { w with
        p := { w.p with isFinished := true, thenQueue := [] },
        ctxs := w.p.thenQueue.foldl
          (fun qs idCtx => enqTask qs idCtx.2 idCtx.1) w.ctxs })

/-- `Promise<void>::on_resolve` (void_promise.inl:5-17): schedule
immediately when `is_finished_`, else append to `then_queue_`. -/
def onResolveVW (ctx : Nat) (w : WVW) : Option Unit × WVW :=
  if w.p.isFinished then
    (some (),
      { w with ctxs := enqTask w.ctxs ctx w.nextId,
               nextId := w.nextId + 1 })
  else
    (some (),
      { w with
        p := { w.p with thenQueue := w.p.thenQueue ++ [(w.nextId, ctx)] },
        nextId := w.nextId + 1 })

/-- `execute_next` on context `ctx`. -/
def execVW (ctx : Nat) (w : WVW) : WVW :=
  match w.ctxs.getD ctx [] with
  | [] => w
  | id :: rest =>
    { w with ctxs := w.ctxs.set ctx rest, completed := w.completed ++ [id] }

end VW

/-! ## ThreadPool worker drain (thread_pool.cc)

A task list is a queue of unit tasks; `TaskList::execute_next` pops and runs
the head when there is one (returning true) and is a side-effect-free false
on an empty list.  A probe pass is therefore determined by the order in
which list indices are tried: the pass stops at the first index whose queue
is non-empty. -/

namespace TP

/-- Run one probe sequence: try `execute_next` on each index in turn and
stop at the first success, returning the executed index and the updated
lists, or `none` after a full fruitless pass. -/
def probeGo (lists : List (List Unit)) :
    List Nat → Option (Nat × List (List Unit))
  | [] => none
  | i :: rest =>
    match lists.getD i [] with
    | [] => probeGo lists rest
    | _ :: t => some (i, lists.set i t)

/-- Inner drain pass of the worker loop (thread_pool.cc:48-66): for
`i = 0 .. n-1` the loop computes `idx = (i + next_task_list_idx_) % n` but
then calls `task_lists_[i]->execute_next()` — probing index `i`, not `idx` —
and on success assigns `next_task_list_idx_ = (i + 1) % n`.  Returns
`(executed index, new cursor, new lists)` when a task ran. -/
def drainLoopPass (_cursor : Nat) (lists : List (List Unit)) :
    Option (Nat × Nat × List (List Unit)) :=
  (probeGo lists (List.range lists.length)).map
    (fun r => (r.1, (r.1 + 1) % lists.length, r.2))

/-- The `cv_has_task_` wait-predicate probe (thread_pool.cc:70-87): for
`i = 0 .. n-1` it probes `task_lists_[idx]` with
`idx = (i + next_task_list_idx_) % n` and on success assigns
`next_task_list_idx_ = (idx + 1) % n`. -/
def waitPredPass (cursor : Nat) (lists : List (List Unit)) :
    Option (Nat × Nat × List (List Unit)) :=
  (probeGo lists
      ((List.range lists.length).map (fun i => (i + cursor) % lists.length))).map
    (fun r => (r.1, (r.1 + 1) % lists.length, r.2))

end TP

/-! ## add_consuming value flow (promise_combiner.h:253-304 vs
promise_combiner.inl:95-123)

To observe `Result::move`, values must track C++ move semantics: the held
type is move-invalidating (like the test suite's `DestructorTracker`, whose
move constructor nulls the source).  A promise's `result_` cell is `empty`
(disengaged), `full v`, or `hollow` (engaged but moved-from).
`unsafe_sync_move` (promise.h:442-445 / promise.inl:111-114) returns
`*(std::move(result_))` — the held value if it is intact, the moved-from
remnant (`none`) otherwise — leaving the cell hollow. -/

namespace AC

/-- A promise's `result_` cell under move semantics. -/
inductive Slot where
  | empty
  | full (v : Nat)
  | hollow
  deriving Repr, DecidableEq

/-- `unsafe_sync_move`: value obtained and cell afterwards. -/
def moveOut : Slot → Option Nat × Slot
  | .empty => (none, .empty)
  | .full v => (some v, .hollow)
  | .hollow => (none, .hollow)

/-- Tasks pending on the single task list of the `add_consuming` scenario:
the dispatched consumer of the user promise (which forwards the moved value
to `p2`), and `p2`'s `on_resolve` notification that calls
`resolve_promise(key)` on the combiner. -/
inductive ACTask where
  | consumeUser
  | notifyCombiner
  deriving Repr, DecidableEq

/-- State of one `add_consuming` entry: the user promise's cell and consume
slot, the pass-through promise `p2`, which of the two the combiner entry's
`PromiseRaw` points at, whether the entry has been marked resolved, and the
pending tasks. -/
structure ACState where
  userSlot : Slot
  userConsumeSet : Bool
  p2Slot : Slot
  entryIsP2 : Bool
  entryResolved : Bool
  tasks : List ACTask
  deriving Repr, DecidableEq

/-- `PromiseCombiner::add_consuming` on a pending user promise.  Both
generations create `p2`, register a `consume` on the user promise that
forwards the moved value into `p2`, and register `on_resolve` on `p2` to
mark the entry; they differ in one line:
`entries_.push_back({key.key_, promise, false, true})`
(promise_combiner.h:287) records the user promise, while
`entries_.push_back({key.key_, p2, false, true})`
(promise_combiner.inl:109) records `p2`.  `recordsP2` selects the line. -/
def addConsuming (recordsP2 : Bool) : ACState :=
  { userSlot := .empty, userConsumeSet := true, p2Slot := .empty,
    entryIsP2 := recordsP2, entryResolved := false, tasks := [] }

/-- `promise->resolve(v)` on the user promise: store the value and — the
then-queue being empty and `remaining_thens_ == 0` with the consume slot
occupied — dispatch the consumer task (promise.h:295 `maybe_consume_rsl` /
promise.inl:45 `maybe_consume`). -/
def userResolve (v : Nat) (s : ACState) : ACState :=
  if s.userSlot = .empty then
    { s with userSlot := .full v,
             tasks := s.tasks ++
               (if s.userConsumeSet then [ACTask.consumeUser] else []) }
  else s

/-- Run the head pending task: the user-promise consumer moves the value out
of the user cell and resolves `p2` with it — which flushes `p2`'s then-queue,
scheduling the combiner notification; the notification marks the entry. -/
def execAC (s : ACState) : ACState :=
  match s.tasks with
  | [] => s
  | t :: rest =>
    let s₁ := { s with tasks := rest }
    match t with
    | .consumeUser =>
      let m := moveOut s₁.userSlot
      match m.1 with
      | some v =>
        { s₁ with userSlot := m.2, p2Slot := .full v,
                  tasks := s₁.tasks ++ [ACTask.notifyCombiner] }
      | none => { s₁ with userSlot := m.2 }
    | .notifyCombiner => { s₁ with entryResolved := true }

/-- Drain the scenario's task list (two tasks suffice). -/
def drainAC (s : ACState) : ACState := execAC (execAC s)

/-- `Result::move(key)` for this entry (promise_combiner.h:121-172 /
promise_combiner.inl:35-66): look up the recorded `PromiseRaw`, check
`IsOwning`, and return `unsafe_sync_move()` of that promise. -/
def resultMove (s : ACState) : Option Nat :=
  (moveOut (if s.entryIsP2 then s.p2Slot else s.userSlot)).1

/-- The full pipeline: `add_consuming` on a pending promise, user resolves
with `v`, task list drained. -/
def pipeline (recordsP2 : Bool) (v : Nat) : ACState :=
  drainAC (userResolve v (addConsuming recordsP2))

end AC

/-! ## Result move semantics (promise_combiner.h:183-194)

All `Result` objects that ever derive from one `combine` call are modelled
as a list of slots — `some ()` while the object owns the combiner
back-reference, `none` otherwise (moved-from or never-owning).  Move
construction appends the destination; both move operations use
`std::exchange(o.combiner_, nullptr)`. -/

namespace RMove

/-- Count the slots that still own the back-reference. -/
def countSome (fam : List (Option Unit)) : Nat :=
  fam.foldr (fun o n => if o.isSome then n + 1 else n) 0

/-- `Result(Result&& o)` (promise_combiner.h:183): the new object takes
`std::exchange(o.combiner_, nullptr)`; the family gains the new object at
the end. -/
def mctor (fam : List (Option Unit)) (src : Nat) : List (Option Unit) :=
  fam.set src none ++ [fam.getD src none]

/-- `Result& operator=(Result&& o)` (promise_combiner.h:184-187):
`combiner_ = std::exchange(o.combiner_, nullptr)` — read the source, null
it, then store into the destination (so a self-assignment is a no-op, and a
destination that held a reference silently drops it without clearing). -/
def massign (fam : List (Option Unit)) (src dst : Nat) : List (Option Unit) :=
  let old := fam.getD src none
  (fam.set src none).set dst old

/-- A sequence of moves among the family members. -/
inductive ROp where
  | ctor (src : Nat)
  | assign (src dst : Nat)
  deriving Repr, DecidableEq

/-- Apply one move. -/
def applyR (fam : List (Option Unit)) : ROp → List (Option Unit)
  | .ctor src => mctor fam src
  | .assign src dst => massign fam src dst

/-- Run moves starting from the single `Result` created by `combine`, which
owns the back-reference. -/
def runR (ops : List ROp) : List (Option Unit) :=
  ops.foldl applyR [some ()]

/-- `~Result` of one family member applied to the combiner, threading a
count of how many destructions actually cleared `entries_`. -/
def dtorStep (acc : Comb.Combiner × Nat) (r : Option Unit) :
    Comb.Combiner × Nat :=
  match r with
  | some _ => ({ acc.1 with entries := [] }, acc.2 + 1)
  | none => acc

/-- Destroy every member of the family. -/
def destroyAll (fam : List (Option Unit)) (c : Comb.Combiner) :
    Comb.Combiner × Nat :=
  fam.foldl dtorStep (c, 0)

end RMove

/-! ## Shared definitions for the key-allocation claims -/

namespace Comb

/-- `n` successive `add` calls (task list available, no finalization) on a
freshly created combiner. -/
def combAfterAdds (n : Nat) : Combiner :=
  runC (List.replicate n (.add (some ()) false)) (initC (some ()))

/-- The `PromiseKey` value returned by add number `n` (0-based) in that
sequence. -/
def keyOfAdd (n : Nat) : Nat :=
  (addC (some ()) false (combAfterAdds n)).1

end Comb

/-! # Theorems -/

/-! ## List helpers -/

theorem listGetD_append_length {α : Type} (l : List α) (x d : α) :
    (l ++ [x]).getD l.length d = x := by
  induction l with
  | nil => rfl
  | cons a t ih => simp [ih]

theorem listGetD_set_lt {α : Type} (l : List α) (i : Nat) (v d : α)
    (h : i < l.length) : (l.set i v).getD i d = v := by
  induction l generalizing i with
  | nil => simp at h
  | cons a t ih =>
    cases i with
    | zero => rfl
    | succ j => simpa using ih j (by simpa using h)

theorem listGetD_append_lt {α : Type} (l l' : List α) (i : Nat) (d : α)
    (h : i < l.length) : (l ++ l').getD i d = l.getD i d := by
  induction l generalizing i with
  | nil => simp at h
  | cons a t ih =>
    cases i with
    | zero => rfl
    | succ j => simpa using ih j (by simpa using h)

theorem listGetD_of_le {α : Type} (l : List α) (i : Nat) (d : α)
    (h : l.length ≤ i) : l.getD i d = d := by
  induction l generalizing i with
  | nil => cases i <;> rfl
  | cons a t ih =>
    cases i with
    | zero => simp at h
    | succ j => simpa using ih j (by simpa using h)

theorem listSet_of_le {α : Type} (l : List α) (i : Nat) (v : α)
    (h : l.length ≤ i) : l.set i v = l := by
  induction l generalizing i with
  | nil => rfl
  | cons a t ih =>
    cases i with
    | zero => simp at h
    | succ j => simpa using ih j (by simpa using h)

/-! ## Counting back-reference holders -/

namespace RMove

theorem countSome_nil : countSome [] = 0 := rfl

theorem countSome_cons (o : Option Unit) (t : List (Option Unit)) :
    countSome (o :: t) =
      (if o.isSome then 1 else 0) + countSome t := by
  cases o <;> simp [countSome, Nat.add_comm]

theorem countSome_append_single (l : List (Option Unit)) (o : Option Unit) :
    countSome (l ++ [o]) = countSome l + (if o.isSome then 1 else 0) := by
  induction l with
  | nil => cases o <;> simp [countSome]
  | cons a t ih =>
    rw [List.cons_append, countSome_cons, ih, countSome_cons]
    omega

theorem countSome_set_none (l : List (Option Unit)) (i : Nat) :
    countSome (l.set i none) +
      (if (l.getD i none).isSome then 1 else 0) ≤ countSome l := by
  induction l generalizing i with
  | nil => simp [countSome]
  | cons a t ih =>
    cases i with
    | zero =>
      rw [List.set_cons_zero, countSome_cons, countSome_cons]
      simp only [List.getD_cons_zero]
      cases a <;> simp <;> omega
    | succ j =>
      rw [List.set_cons_succ, countSome_cons, countSome_cons]
      simp only [List.getD_cons_succ]
      have := ih j
      omega

theorem countSome_set_le (l : List (Option Unit)) (i : Nat) (v : Option Unit) :
    countSome (l.set i v) ≤ countSome l + (if v.isSome then 1 else 0) := by
  induction l generalizing i with
  | nil => simp [countSome]
  | cons a t ih =>
    cases i with
    | zero =>
      rw [List.set_cons_zero, countSome_cons, countSome_cons]
      cases a <;> cases v <;> simp <;> omega
    | succ j =>
      rw [List.set_cons_succ, countSome_cons, countSome_cons]
      have := ih j
      omega

theorem countSome_mctor (fam : List (Option Unit)) (src : Nat) :
    countSome (mctor fam src) ≤ countSome fam := by
  rw [mctor, countSome_append_single]
  exact countSome_set_none fam src

theorem countSome_massign (fam : List (Option Unit)) (src dst : Nat) :
    countSome (massign fam src dst) ≤ countSome fam := by
  rw [massign]
  calc countSome ((fam.set src none).set dst (fam.getD src none))
      ≤ countSome (fam.set src none) +
          (if (fam.getD src none).isSome then 1 else 0) :=
        countSome_set_le _ _ _
    _ ≤ countSome fam := countSome_set_none fam src

theorem countSome_applyR (fam : List (Option Unit)) (op : ROp) :
    countSome (applyR fam op) ≤ countSome fam := by
  cases op with
  | ctor src => exact countSome_mctor fam src
  | assign src dst => exact countSome_massign fam src dst

theorem countSome_runR (ops : List ROp) : countSome (runR ops) ≤ 1 := by
  suffices h : ∀ (l : List ROp) (fam : List (Option Unit)),
      countSome fam ≤ 1 → countSome (l.foldl applyR fam) ≤ 1 by
    exact h ops [some ()] (by simp [countSome])
  intro l
  induction l with
  | nil => intro fam h; simpa using h
  | cons op rest ih =>
    intro fam h
    exact ih (applyR fam op) (Nat.le_trans (countSome_applyR fam op) h)

theorem destroyAll_clears_count (fam : List (Option Unit))
    (c : Comb.Combiner) : (destroyAll fam c).2 = countSome fam := by
  suffices h : ∀ (l : List (Option Unit)) (c' : Comb.Combiner) (n : Nat),
      (l.foldl dtorStep (c', n)).2 = n + countSome l by
    simpa using h fam c 0
  intro l
  induction l with
  | nil => intro c' n; simp [countSome]
  | cons o t ih =>
    intro c' n
    cases o with
    | none =>
      rw [countSome_cons]
      simpa [dtorStep] using ih c' n
    | some u =>
      rw [countSome_cons]
      have := ih { c' with entries := [] } (n + 1)
      simp only [List.foldl_cons, dtorStep, Option.isSome_some, if_true] at this ⊢
      omega

end RMove

/-! ## Combiner invariants -/

namespace Comb

theorem markFirst_all_of_all (key : Nat) (l : List Entry)
    (h : l.all (·.isResolved) = true) :
    (markFirst key l).all (·.isResolved) = true := by
  induction l with
  | nil => rfl
  | cons e t ih =>
    simp only [List.all_cons, Bool.and_eq_true] at h
    rw [markFirst]
    by_cases hk : e.key = key
    · simp [hk, h.1, h.2]
    · simp [hk, h.1, ih h.2]

/-- The resolution invariant: `final_promise_` has resolved exactly when
`combine*` ran and every entry is marked resolved. -/
def resolvedInv (c : Combiner) : Prop :=
  c.finalResolved = (c.isFinished && c.entries.all (·.isResolved))

/-- `resolve_promise` (re-)establishes the invariant from the weaker fact
that a resolved terminal promise can only have come from a finished, fully
resolved combiner — which also covers the transient state inside `combine*`,
where `is_finished_` is already true but the sentinel tick has not run. -/
theorem resolvePromiseC_establishes (key : Nat) (c : Combiner)
    (h : c.finalResolved = true →
      c.isFinished = true ∧ c.entries.all (·.isResolved) = true) :
    resolvedInv (resolvePromiseC key c) := by
  unfold resolvedInv resolvePromiseC
  have hes : c.entries.all (·.isResolved) = true →
      (if key ≠ 0 then markFirst key c.entries
        else c.entries).all (·.isResolved) = true := by
    intro hcc
    by_cases hk : key ≠ 0
    · rw [if_pos hk]; exact markFirst_all_of_all key c.entries hcc
    · rw [if_neg hk]; exact hcc
  by_cases hf : c.isFinished = true
  · rw [if_neg (by simp [hf])]
    by_cases ha : (if key ≠ 0 then markFirst key c.entries
        else c.entries).all (·.isResolved) = true
    · rw [if_pos ha]
      show true = (c.isFinished && (if key ≠ 0 then markFirst key c.entries
        else c.entries).all (·.isResolved))
      rw [hf, ha]
      rfl
    · rw [if_neg ha]
      have hfr : c.finalResolved = false := by
        cases hb : c.finalResolved
        · rfl
        · exact absurd (hes (h hb).2) ha
      have ha' : (if key ≠ 0 then markFirst key c.entries
          else c.entries).all (·.isResolved) = false := by
        cases hb : (if key ≠ 0 then markFirst key c.entries
            else c.entries).all (·.isResolved)
        · rfl
        · exact absurd hb ha
      show c.finalResolved = (c.isFinished &&
        (if key ≠ 0 then markFirst key c.entries
          else c.entries).all (·.isResolved))
      rw [hfr, ha', hf]
      rfl
  · rw [if_pos hf]
    have hfr : c.finalResolved = false := by
      cases hb : c.finalResolved
      · rfl
      · exact absurd (h hb).1 hf
    have hf' : c.isFinished = false := by
      cases hb : c.isFinished
      · rfl
      · exact absurd hb hf
    show c.finalResolved = (c.isFinished &&
      (if key ≠ 0 then markFirst key c.entries
        else c.entries).all (·.isResolved))
    rw [hfr, hf']
    rfl

theorem resolvedInv_resolvePromiseC (key : Nat) (c : Combiner)
    (h : resolvedInv c) : resolvedInv (resolvePromiseC key c) := by
  refine resolvePromiseC_establishes key c ?_
  intro hb
  unfold resolvedInv at h
  rw [hb] at h
  exact ⟨(Bool.and_eq_true _ _ ▸ h.symm).1, (Bool.and_eq_true _ _ ▸ h.symm).2⟩

theorem resolvedInv_addC (tl : Option Unit) (owning : Bool) (c : Combiner)
    (h : resolvedInv c) : resolvedInv (addC tl owning c).2 := by
  unfold resolvedInv at h ⊢
  unfold addC
  by_cases hn : (match tl with
      | some u => some u
      | none => c.defaultTaskList) = (none : Option Unit)
  · rw [if_pos hn]
    exact h
  · rw [if_neg hn]
    by_cases hf : c.isFinished = true
    · rw [if_pos hf]
      exact h
    · rw [if_neg hf]
      have hf' : c.isFinished = false := by
        cases hb : c.isFinished
        · rfl
        · exact absurd hb hf
      rw [hf'] at h
      simp only [Bool.false_and] at h
      simp [h, hf']

theorem resolvedInv_combineC (tl : Option Unit) (c : Combiner)
    (h : resolvedInv c) : resolvedInv (combineC tl c).2 := by
  unfold combineC
  by_cases hn : (match tl with
      | some u => some u
      | none => c.defaultTaskList) = (none : Option Unit)
  · rw [if_pos hn]
    exact h
  · rw [if_neg hn]
    by_cases hf : c.isFinished = true
    · rw [if_pos hf]
      exact h
    · rw [if_neg hf]
      refine resolvePromiseC_establishes 0 _ ?_
      intro hb
      exfalso
      have hf' : c.isFinished = false := by
        cases hbb : c.isFinished
        · rfl
        · exact absurd hbb hf
      unfold resolvedInv at h
      rw [hf'] at h
      simp only [Bool.false_and] at h
      have hb' : c.finalResolved = true := hb
      rw [h] at hb'
      exact Bool.noConfusion hb'

theorem resolvedInv_applyC (c : Combiner) (op : COp)
    (h : resolvedInv c) : resolvedInv (applyC c op) := by
  cases op with
  | childResolve key => exact resolvedInv_resolvePromiseC key c h
  | add tl owning => exact resolvedInv_addC tl owning c h
  | combine tl => exact resolvedInv_combineC tl c h

theorem resolvedInv_runC (ops : List COp) (c : Combiner)
    (h : resolvedInv c) : resolvedInv (runC ops c) := by
  induction ops generalizing c with
  | nil => simpa [runC] using h
  | cons op rest ih =>
    simpa [runC] using ih (applyC c op) (resolvedInv_applyC c op h)

/-! ## Key-allocation arithmetic -/

theorem combAfterAdds_spec (n : Nat) :
    (combAfterAdds n).isFinished = false ∧
      (combAfterAdds n).nextKey = (1 + n) % 65536 := by
  induction n with
  | zero => exact ⟨rfl, rfl⟩
  | succ m ih =>
    have hstep : combAfterAdds (m + 1) =
        applyC (combAfterAdds m) (.add (some ()) false) := by
      unfold combAfterAdds runC
      rw [List.replicate_succ', List.foldl_append]
      rfl
    rw [hstep]
    constructor
    · simp [applyC, addC, ih.1]
    · simp only [applyC, addC, ih.1]
      simp only [reduceCtorEq, if_false, Bool.false_eq_true]
      rw [ih.2]
      omega

theorem keyOfAdd_eq (n : Nat) : keyOfAdd n = (1 + n) % 65536 := by
  obtain ⟨hf, hk⟩ := combAfterAdds_spec n
  simp [keyOfAdd, addC, hf, hk]

end Comb

/-! ## Promise resolve helpers -/

namespace NV

theorem maybeConsumeNV_p (w : WNV) : (maybeConsumeNV w).p = w.p := by
  unfold maybeConsumeNV
  cases h : w.p.consumeSlot with
  | none => rfl
  | some idCtx =>
    by_cases hr : w.p.remainingThens = 0
    · simp only [hr, if_pos]
    · simp only [hr, if_neg, if_false]

theorem resolveNV_result_isSome (w : WNV) (v : Nat) :
    ((resolveNV v w).2).p.result.isSome = true := by
  unfold resolveNV
  by_cases hr : w.p.result.isSome = true
  · rw [if_pos hr]
    exact hr
  · rw [if_neg hr]
    dsimp only
    rw [maybeConsumeNV_p]
    rfl

end NV

/-! # Claim theorems -/

/-- Claim C1 (code evaluation).  Legacy `Promise<ValT>::consume`
(promise.h:334-356) schedules the consumer as soon as `result_` holds a
value, without consulting `remaining_thens_`.  Concretely: register
`on_resolve` callback 0 on task list 0, `resolve(10)` (dispatching the
then-task), then `consume` (callback 1) on task list 1 and drain list 1
first — the consumer's user function has run (`consumerRuns = [1]`) while
the then-callback registered before the consumer was attached has not
completed (`completedThens = []`, its task still queued on list 0 and
`remaining_thens_ = 1`), contradicting the claimed ordering guarantee. -/
theorem c1_legacy_consume_skips_pending_thens :
    (fun w => (w.consumerRuns, w.completedThens, w.p.remainingThens, w.ctxs))
        (H.runH 2 [.onResolve 0, .resolve 10, .consume 1, .exec 1]) =
      ([1], [], 1, [[H.TaskH.thenPre 0], []]) := by
  decide

/-- Claim C2.  In both the current `Promise<ValT>` (promise.inl:19-48) and
the current `Promise<void>` (void_promise.cc:15-37), `resolve` on an
already-resolved promise returns a null handle and leaves the entire state —
stored value, flags, queues, scheduled tasks — unchanged; and any `resolve`
call leaves the promise with a value present, so every second-or-later
`resolve` is such a rejected call. -/
theorem c2_resolve_at_most_once :
    (∀ (w : NV.WNV) (v : Nat), w.p.result.isSome = true →
        NV.resolveNV v w = (none, w)) ∧
    (∀ (w : NV.WNV) (v v' : Nat),
        NV.resolveNV v' ((NV.resolveNV v w).2) =
          (none, (NV.resolveNV v w).2)) ∧
    (∀ (w : VW.WVW), w.p.isFinished = true → VW.resolveVW w = (none, w)) := by
  have h1 : ∀ (w : NV.WNV) (v : Nat), w.p.result.isSome = true →
      NV.resolveNV v w = (none, w) := by
    intro w v h
    unfold NV.resolveNV
    rw [if_pos h]
  refine ⟨h1, ?_, ?_⟩
  · intro w v v'
    exact h1 _ v' (NV.resolveNV_result_isSome w v)
  · intro w h
    unfold VW.resolveVW
    rw [if_pos h]

/-- Witness for C2 at a concrete promise: `initNV 1` resolved with 5 is
resolved, and resolving it again with 7 returns the null handle and changes
nothing. -/
theorem c2_witness :
    ((NV.resolveNV 5 (NV.initNV 1)).2).p.result.isSome = true ∧
    NV.resolveNV 7 ((NV.resolveNV 5 (NV.initNV 1)).2) =
      (none, (NV.resolveNV 5 (NV.initNV 1)).2) := by
  constructor
  · decide
  · exact c2_resolve_at_most_once.1 _ 7 (by decide)

/-- Claim C3 (code evaluation).  In the legacy `add_consuming`
(promise_combiner.h:253-304) the recorded entry holds the **user** promise,
not the pass-through promise `p2` — `entries_.push_back({key.key_, promise,
false, true})` at promise_combiner.h:287 — while the `consume` it installs
moves the resolved value out of the user promise into `p2`.  After resolving
the user promise with 5 and draining, the entry is marked resolved, yet
`Result::move` on the recorded handle returns the moved-from remnant
(`none`), not the value 5; with the current generation's line
(promise_combiner.inl:109, `entryIsP2 = true`) the same pipeline yields
`some 5`. -/
theorem c3_legacy_entry_records_user_promise :
    (AC.pipeline false 5).entryResolved = true ∧
    AC.resultMove (AC.pipeline false 5) = none ∧
    AC.resultMove (AC.pipeline true 5) = some 5 := by
  decide

/-- Claim C4.  For every trace of `add`/`add_consuming` calls, child
resolutions and `combine*` calls against a fresh combiner, the terminal
promise has resolved exactly when `combine*` has run and every entry is
marked resolved; in particular `combine` after all children resolved (and
`combine` on a combiner with no entries) resolves immediately through the
sentinel tick `resolve_promise(0)`. -/
theorem c4_final_resolves_iff_finished_and_all_resolved :
    (∀ (ops : List Comb.COp) (dtl : Option Unit),
        (Comb.runC ops (Comb.initC dtl)).finalResolved =
          ((Comb.runC ops (Comb.initC dtl)).isFinished &&
            (Comb.runC ops (Comb.initC dtl)).entries.all (·.isResolved))) ∧
    (Comb.runC [.add (some ()) false, .add (some ()) true, .childResolve 1,
        .childResolve 2, .combine (some ())]
      (Comb.initC (some ()))).finalResolved = true ∧
    (Comb.runC [.combine (some ())] (Comb.initC (some ()))).finalResolved =
      true := by
  refine ⟨?_, by decide, by decide⟩
  intro ops dtl
  exact Comb.resolvedInv_runC ops (Comb.initC dtl) rfl

/-- Claim C5 (code evaluation).  Legacy `Promise<void>::on_resolve`
(promise.h:162-183) has its branches inverted: a continuation registered
while the promise is still pending is scheduled (and runs) immediately —
trace `[onResolve 0, exec 0]` completes callback 0 with `is_finished_`
still false — while a continuation registered after `resolve` is appended to
`then_queue_`, which `resolve` has already flushed and never flushes again,
so it is never scheduled (trace `[resolve, onResolve 0, exec 0]`: nothing
completed, the callback parked in the queue, every task list empty).  The
current-generation `void_promise.inl:5-17` / `promise.inl:50-72` have the
orientation the claim states. -/
theorem c5_legacy_void_on_resolve_inverted :
    (OV.runOV 1 [.onResolve 0, .exec 0]).completed = [0] ∧
    (OV.runOV 1 [.onResolve 0, .exec 0]).p.isFinished = false ∧
    (OV.runOV 1 [.resolve, .onResolve 0, .exec 0]).completed = [] ∧
    (OV.runOV 1 [.resolve, .onResolve 0, .exec 0]).p.thenQueue = [(0, 0)] ∧
    (OV.runOV 1 [.resolve, .onResolve 0, .exec 0]).ctxs = [[]] := by
  decide

/-- Claim C6.  Destroying a `Result` that still owns the combiner
back-reference clears the combiner's `entries_` vector and modifies no other
combiner field. -/
theorem c6_result_dtor_clears_entries_only :
    ∀ c : Comb.Combiner,
      (Comb.resultDtor true c).entries = [] ∧
      (Comb.resultDtor true c).nextKey = c.nextKey ∧
      (Comb.resultDtor true c).isFinished = c.isFinished ∧
      (Comb.resultDtor true c).resultHeld = c.resultHeld ∧
      (Comb.resultDtor true c).finalResolved = c.finalResolved ∧
      (Comb.resultDtor true c).defaultTaskList = c.defaultTaskList :=
  fun _ => ⟨rfl, rfl, rfl, rfl, rfl, rfl⟩

/-- Claim C7 (code evaluation).  The worker's inner drain
(thread_pool.cc:48-66) computes `idx = (i + next_task_list_idx_) % n` but
probes `task_lists_[i]`, so with cursor 1 and two non-empty lists it
executes from list 0 — whereas the claimed round-robin (implemented
correctly by the wait predicate at thread_pool.cc:70-87) executes from list
1; the two passes disagree on the same input. -/
theorem c7_inner_drain_ignores_cursor :
    TP.drainLoopPass 1 [[()], [()]] = some (0, 1, [[], [()]]) ∧
    TP.waitPredPass 1 [[()], [()]] = some (1, 0, [[()], []]) ∧
    TP.drainLoopPass 1 [[()], [()]] ≠ TP.waitPredPass 1 [[()], [()]] := by
  decide

/-- Counterexample for C8: with no bound on the number of adds, the claim
fails — `next_key_` is a `uint16_t`, so the 65536th `add` (index 65535)
returns the wrapped-around key 0, which is not `is_valid`. -/
theorem c8_key_wraps_to_zero :
    Comb.isValidKey (Comb.keyOfAdd 65535) = false := by
  rw [Comb.keyOfAdd_eq]
  decide

/-- Claim C8 as amended: keys returned by the first 65535 adds of a combiner
are valid (non-zero) and pairwise distinct; beyond that the 16-bit
`next_key_` counter wraps, so the guarantee holds only below the wrap. -/
theorem c8_keys_distinct_below_wrap :
    ∀ i j : Nat, i < 65535 → j < 65535 →
      Comb.isValidKey (Comb.keyOfAdd i) = true ∧
      (i ≠ j → Comb.keyOfAdd i ≠ Comb.keyOfAdd j) := by
  intro i j hi hj
  have h1 : Comb.keyOfAdd i = 1 + i := by
    rw [Comb.keyOfAdd_eq]
    exact Nat.mod_eq_of_lt (by omega)
  have h2 : Comb.keyOfAdd j = 1 + j := by
    rw [Comb.keyOfAdd_eq]
    exact Nat.mod_eq_of_lt (by omega)
  constructor
  · rw [h1]
    simp [Comb.isValidKey]
  · intro hij
    rw [h1, h2]
    omega

/-- Witness for C8 at the first two adds: keys 1 and 2 are valid and
distinct. -/
theorem c8_witness :
    (0 : Nat) < 65535 ∧ (1 : Nat) < 65535 ∧
    (Comb.isValidKey (Comb.keyOfAdd 0) = true ∧
      ((0 : Nat) ≠ 1 → Comb.keyOfAdd 0 ≠ Comb.keyOfAdd 1)) :=
  ⟨by decide, by decide, c8_keys_distinct_below_wrap 0 1 (by decide) (by decide)⟩

/-- Claim C9.  On a combiner whose `options_.DefaultTaskList` is null, `add`
and `add_consuming` without an override return the invalid key 0 and leave
the combiner untouched (no entry recorded), and `combine` without an
override returns a null promise handle without finalizing — the whole state,
`entries_` and `is_finished_` included, is unchanged.  (`assert(false)` on
these paths is a release-build no-op.) -/
theorem c9_null_task_list_rejected :
    ∀ c : Comb.Combiner, c.defaultTaskList = none →
      Comb.addC none false c = (0, c) ∧
      Comb.addC none true c = (0, c) ∧
      Comb.isValidKey 0 = false ∧
      Comb.combineC none c = (none, c) := by
  intro c h
  refine ⟨?_, ?_, rfl, ?_⟩ <;> simp [Comb.addC, Comb.combineC, h]

/-- Witness for C9 on a freshly created combiner with a null default task
list. -/
theorem c9_witness :
    (Comb.initC none).defaultTaskList = none ∧
    (Comb.addC none false (Comb.initC none) = (0, Comb.initC none) ∧
      Comb.addC none true (Comb.initC none) = (0, Comb.initC none) ∧
      Comb.isValidKey 0 = false ∧
      Comb.combineC none (Comb.initC none) = (none, Comb.initC none)) :=
  ⟨rfl, c9_null_task_list_rejected (Comb.initC none) rfl⟩

/-- Claim C10.  Move construction hands the combiner back-reference to the
new `Result` and nulls the source; a member without the reference (in
particular any moved-from `Result`) has a destructor that changes nothing;
and over any sequence of move constructions and move assignments among the
`Result` objects derived from one `combine` call, destroying every member
clears the combiner's entries at most once. -/
theorem c10_result_move_transfer_and_single_clear :
    (∀ (fam : List (Option Unit)) (src : Nat),
        (RMove.mctor fam src).getD fam.length none = fam.getD src none ∧
        (RMove.mctor fam src).getD src none = none) ∧
    (∀ (c : Comb.Combiner) (n : Nat), RMove.dtorStep (c, n) none = (c, n)) ∧
    (∀ (ops : List RMove.ROp) (c : Comb.Combiner),
        (RMove.destroyAll (RMove.runR ops) c).2 ≤ 1) := by
  refine ⟨?_, fun c n => rfl, ?_⟩
  · intro fam src
    constructor
    · have h := listGetD_append_length (fam.set src none)
        (fam.getD src none) none
      rw [List.length_set] at h
      exact h
    · by_cases hs : src < fam.length
      · rw [RMove.mctor,
          listGetD_append_lt _ _ src none (by rw [List.length_set]; exact hs)]
        exact listGetD_set_lt fam src none none hs
      · have hge : fam.length ≤ src := Nat.le_of_not_lt hs
        have hnil : fam.getD src none = none := listGetD_of_le fam src none hge
        rw [RMove.mctor, listSet_of_le fam src none hge, hnil]
        by_cases he : src = fam.length
        · rw [he]
          exact listGetD_append_length fam none none
        · refine listGetD_of_le _ src none ?_
          simp only [List.length_append, List.length_cons, List.length_nil]
          omega
  · intro ops c
    rw [RMove.destroyAll_clears_count]
    exact RMove.countSome_runR ops

end Igasync
